import Mathlib

/-!
Shallow embedding of `src/wikipedia_scraper.py` (class `WikipediaScraper`).

HTML documents are modelled structurally: each CSS-selector query of the
source is represented by the list (or optional value) of elements it returns,
carried in a `Page` record.  Network traffic is modelled by an `Env` of
oracles (`search` for `search_wikipedia`'s outcome, `fetch` for
`session.get`).  Python dictionaries are modelled as insertion-ordered
association lists with in-place update, which is exactly the observable
behaviour of `dict` assignment.  Python exceptions are modelled with
`Except`: an unhandled fault aborts the surrounding run.
-/

namespace WikiScraper

/-! ### Python `dict` model (insertion-ordered association list) -/

/-- `d[k] = v` on a Python `dict`: if the key is present, the entry is
updated in place (keeping its position); otherwise the pair is appended. -/
def dictSet (d : List (String × String)) (k v : String) : List (String × String) :=
  if d.any (fun p => p.1 == k) then
    d.map (fun p => if p.1 == k then (k, v) else p)
  else
    d ++ [(k, v)]

/-- `d.get(k)`: value of the first entry with key `k`, if any. -/
def dictGet (d : List (String × String)) (k : String) : Option String :=
  (d.find? (fun p => p.1 == k)).map Prod.snd

/-- The keys of the dictionary, in insertion order. -/
def dictKeys (d : List (String × String)) : List String :=
  d.map Prod.fst

/-! ### Filesystem-safe filename derivation

`scrape_keywords` line 173:
`filename = re.sub(r'[^\w\s]', '', keyword).replace(' ', '_').lower()`.
The regex classes `\w` and `\s` are modelled at their ASCII meaning
(`[A-Za-z0-9_]` and `[ \t\n\r\x0b\x0c]`), which covers every input the
claims mention. -/

/-- ASCII reading of the regex class `\w`: letters, digits, underscore. -/
def isWordChar (c : Char) : Bool :=
  (48 ≤ c.toNat && c.toNat ≤ 57) || (65 ≤ c.toNat && c.toNat ≤ 90) ||
    (97 ≤ c.toNat && c.toNat ≤ 122) || (c.toNat == 95)

/-- ASCII reading of the regex class `\s`: space, tab, newline, carriage
return, vertical tab, form feed. -/
def isSpaceChar (c : Char) : Bool :=
  (c.toNat == 32) || (c.toNat == 9) || (c.toNat == 10) || (c.toNat == 13) ||
    (c.toNat == 11) || (c.toNat == 12)

/-- `re.sub(r'[^\w\s]', '', keyword).replace(' ', '_').lower()`:
drop every character that is neither a word character nor whitespace, then
replace each space with an underscore, then lower-case. -/
def safeFilename (keyword : String) : String :=
  String.mk
    (((keyword.data.filter (fun c => isWordChar c || isSpaceChar c)).map
        (fun c => if c = ' ' then '_' else c)).map Char.toLower)

/-- Python `str.strip()` at its ASCII meaning: remove leading and trailing
whitespace characters.  (Defined structurally so that the kernel can
evaluate it; `String.trim` is defined by well-founded recursion and does
not reduce.) -/
def pyStrip (s : String) : String :=
  String.mk (((s.data.dropWhile isSpaceChar).reverse.dropWhile isSpaceChar).reverse)

/-! ### Summary extraction (`get_article_content` lines 80-86) -/

/-- A `<p>` element of `#mw-content-text p`: its text and whether it
contains an `<img>` descendant (`p.find('img')`). -/
structure Para where
  text : String
  hasImg : Bool
  deriving DecidableEq

/-- The loop condition `p.text.strip() and not p.find('img')`. -/
def goodPara (p : Para) : Bool :=
  pyStrip p.text != "" && !p.hasImg

/-- The summary loop: `summary = ""`, then the first paragraph whose
trimmed text is non-empty and which has no image sets the summary and
breaks. -/
def getSummary : List Para → String
  | [] => ""
  | p :: rest => if pyStrip p.text != "" && !p.hasImg then pyStrip p.text else getSummary rest

/-! ### Infobox extraction (`get_article_content` lines 89-99) -/

/-- A `<tr>` of the infobox: the optional first `<th>` and first `<td>`
(`row.select_one('th')`, `row.select_one('td')`). -/
structure Row where
  th : Option String
  td : Option String
  deriving DecidableEq

/-- The key/value pair a row contributes, if it has both cells. -/
def completeKV (r : Row) : Option (String × String) :=
  match r.th, r.td with
  | some h, some d => some (pyStrip h, pyStrip d)
  | _, _ => none

/-- The infobox loop over `infobox.select('tr')`. -/
def infoboxGo : List Row → List (String × String) → List (String × String)
  | [], acc => acc
  | r :: rest, acc =>
    match r.th, r.td with
    | some h, some d => infoboxGo rest (dictSet acc (pyStrip h) (pyStrip d))
    | some _, none => infoboxGo rest acc
    | none, _ => infoboxGo rest acc

/-- `infobox_data` after the loop, starting from the empty dict. -/
def getInfobox (rows : List Row) : List (String × String) :=
  infoboxGo rows []

/-! ### Section extraction (`get_article_content` lines 102-113)

The selector `#mw-content-text > div > h2, ... h3, ... p` yields headings
and paragraphs in document order.  A heading element carries its text with
the `.mw-editsection` spans already decomposed (the code removes them
before reading `.text`). -/

/-- An element returned by the section selector. -/
inductive Elem where
  | heading (text : String)
  | para (text : String)
  deriving DecidableEq

/-- Is the element an `h2`/`h3` heading? -/
def isHeadingElem : Elem → Bool
  | .heading _ => true
  | .para _ => false

/-- The trimmed texts of the headings, in document order. -/
def headingTrims (es : List Elem) : List String :=
  es.filterMap (fun e => match e with
    | .heading t => some (pyStrip t)
    | .para _ => none)

/-- The section loop.  `cur` is `current_section` (Python truthiness:
both `None` and the empty string close the paragraph branch).  On a
heading, `sections[current_section] = ""`; on a paragraph with a truthy
current section, `sections[current_section] += text.strip() + " "`
(the key is always present, having been inserted by its heading, so the
`getD ""` default is never taken). -/
def sectionsGo : List Elem → Option String → List (String × String) → List (String × String)
  | [], _, acc => acc
  | .heading t :: rest, _, acc =>
    sectionsGo rest (some (pyStrip t)) (dictSet acc (pyStrip t) "")
  | .para t :: rest, cur, acc =>
    match cur with
    | none => sectionsGo rest cur acc
    | some s =>
      if s = "" then sectionsGo rest cur acc
      else sectionsGo rest cur (dictSet acc s ((dictGet acc s).getD "" ++ pyStrip t ++ " "))

/-- `sections` after the loop: no current section, empty dict. -/
def getSections (es : List Elem) : List (String × String) :=
  sectionsGo es none []

/-- Trimmed text of a paragraph element (headings contribute nothing). -/
def paraTrim : Elem → String
  | .heading _ => ""
  | .para t => pyStrip t

/-- Text accumulated for one section: trimmed text of each paragraph up to
the next heading, each followed by a single space. -/
def chunkText (es : List Elem) : String :=
  String.join ((es.takeWhile (fun e => !isHeadingElem e)).map (fun e => paraTrim e ++ " "))

/-- Modelled from the spec's section-extraction sentence: one entry per
heading in document order, valued by the text of the paragraphs lying
before the next heading; leading paragraphs are dropped. -/
def sectionsSpec : List Elem → List (String × String)
  | [] => []
  | .para _ :: rest => sectionsSpec rest
  | .heading t :: rest =>
    (pyStrip t, chunkText rest) :: sectionsSpec (rest.dropWhile (fun e => !isHeadingElem e))
termination_by es => es.length
decreasing_by
  · simp only [List.length_cons]
    omega
  · simp only [List.length_cons]
    exact Nat.lt_succ_of_le (List.Sublist.length_le (List.dropWhile_sublist _))

/-! ### Link and image extraction (`get_article_content` lines 121-140) -/

/-- An `<a>` element of `#mw-content-text a`: optional `href` and text. -/
structure Anchor where
  href : Option String
  text : String
  deriving DecidableEq

/-- Python `s.startswith(p)`: code-point prefix test. -/
def pyStartsWith (s p : String) : Bool :=
  p.data.isPrefixOf s.data

/-- The link filter: `href.startswith('/wiki/') and ':' not in href`,
emitting `{'text': link.text.strip(), 'url': 'https://en.wikipedia.org' + href}`. -/
def linkOf (a : Anchor) : Option (String × String) :=
  let href := a.href.getD ""
  if pyStartsWith href "/wiki/" && !(href.contains ':') then
    some (pyStrip a.text, "https://en.wikipedia.org" ++ href)
  else
    none

/-- `links` after the loop. -/
def getLinks (anchors : List Anchor) : List (String × String) :=
  anchors.filterMap linkOf

/-- An `<img>` element of `.image img`: optional `src` and `alt`. -/
structure Img where
  src : Option String
  alt : Option String
  deriving DecidableEq

/-- `src = img.get('src', '')`, then
`if not src.startswith('http'): src = f"https:{src}"`. -/
def normalizeSrc (src : String) : String :=
  if pyStartsWith src "http" then src else "https:" ++ src

/-- The `{'src': ..., 'alt': img.get('alt', '')}` record for one image. -/
def extractImage (i : Img) : String × String :=
  (normalizeSrc (i.src.getD ""), i.alt.getD "")

/-- `images` after the loop. -/
def getImages (imgs : List Img) : List (String × String) :=
  imgs.map extractImage

/-! ### Whole-page extraction and the scraping run -/

/-- The selector results of one fetched article page.
`firstHeading` is `soup.select_one('#firstHeading')` (`none` when absent:
the code then dereferences `None` and faults). -/
structure Page where
  firstHeading : Option String
  paragraphs : List Para
  infobox : Option (List Row)
  bodyElems : List Elem
  refTexts : List String
  anchors : List Anchor
  imgs : List Img
  deriving DecidableEq

/-- One HTTP response: status code and parsed page. -/
structure Response where
  status : Nat
  page : Page
  deriving DecidableEq

/-- The `article_data` record (`keyword` is set later, in `scrape_keywords`). -/
structure ArticleData where
  keyword : String
  title : String
  url : String
  summary : String
  infobox : List (String × String)
  sections : List (String × String)
  references : List String
  links : List (String × String)
  images : List (String × String)
  deriving DecidableEq

/-- `get_article_content`: `.ok none` models `return None` on a non-200
status; `.error` models the unhandled `AttributeError` raised when
`select_one('#firstHeading')` returns `None` and `.text` is read on it. -/
def get_article_content (url : String) (resp : Response) : Except String (Option ArticleData) :=
  if resp.status ≠ 200 then
    Except.ok none
  else
    match resp.page.firstHeading with
    | none => Except.error "AttributeError"
    | some h =>
      Except.ok (some
        { keyword := ""
          title := pyStrip h
          url := url
          summary := getSummary resp.page.paragraphs
          infobox := match resp.page.infobox with
            | none => []
            | some rows => getInfobox rows
          sections := getSections resp.page.bodyElems
          references := resp.page.refTexts.map pyStrip
          links := getLinks resp.page.anchors
          images := getImages resp.page.imgs })

/-- One summary-table row. -/
structure SummaryRow where
  keyword : String
  title : String
  url : String
  summary : String
  deriving DecidableEq

/-- `item['summary'][:200] + '...' if len(item['summary']) > 200 else
item['summary']`. -/
def truncateSummary (s : String) : String :=
  if s.length > 200 then s.take 200 ++ "..." else s

/-- The dictionary appended to `summary_data` for one result. -/
def mkSummaryRow (a : ArticleData) : SummaryRow :=
  { keyword := a.keyword
    title := a.title
    url := a.url
    summary := truncateSummary a.summary }

/-- The network, as oracles: `search` is the outcome of `search_wikipedia`
for a keyword, `fetch` the response `session.get` yields for a URL. -/
structure Env where
  search : String → Option String
  fetch : String → Response

/-- Observable output of a run: per-keyword JSON writes in order
(filename, record), the `results` list, and the summary-CSV row list when
one is written. -/
structure ScrapeOutput where
  results : List ArticleData
  files : List (String × ArticleData)
  summaryCsv : Option (List SummaryRow)
  deriving DecidableEq

/-- The `for keyword in keywords` loop of `scrape_keywords`, accumulating
`results` and the JSON files written.  An `AttributeError` from
`get_article_content` propagates and aborts the run. -/
def scrapeGo (env : Env) :
    List String → List ArticleData → List (String × ArticleData) →
    Except String (List ArticleData × List (String × ArticleData))
  | [], res, files => Except.ok (res, files)
  | k :: rest, res, files =>
    match env.search k with
    | none => scrapeGo env rest res files
    | some url =>
      match get_article_content url (env.fetch url) with
      | Except.error e => Except.error e
      | Except.ok none => scrapeGo env rest res files
      | Except.ok (some a0) =>
        let a := { a0 with keyword := k }
        scrapeGo env rest (res ++ [a]) (files ++ [(safeFilename k ++ ".json", a)])

/-- `scrape_keywords`: run the loop, then write the summary CSV only when
`results` is non-empty, with one truncated row per result. -/
def scrape_keywords (env : Env) (keywords : List String) : Except String ScrapeOutput :=
  (scrapeGo env keywords [] []).map (fun pr =>
    { results := pr.1
      files := pr.2
      summaryCsv := if pr.1.isEmpty then none else some (pr.1.map mkSummaryRow) })

/-! ### Concrete pages and environments used by the witnesses -/

/-- A minimal article page. -/
def pageA : Page :=
  { firstHeading := some "Artificial intelligence"
    paragraphs := [{ text := "  AI is a field.  ", hasImg := false }]
    infobox := none
    bodyElems := []
    refTexts := []
    anchors := []
    imgs := [] }

/-- A page whose main heading element is missing. -/
def pageNoHeading : Page :=
  { firstHeading := none
    paragraphs := []
    infobox := none
    bodyElems := []
    refTexts := []
    anchors := []
    imgs := [] }

/-- Environment in which every keyword resolves and every fetch succeeds
with `pageA`. -/
def envOk : Env :=
  { search := fun k => some ("https://en.wikipedia.org/wiki/" ++ k)
    fetch := fun _ => { status := 200, page := pageA } }

/-- Environment in which every fetch comes back 404. -/
def envFail : Env :=
  { search := fun _ => some "https://en.wikipedia.org/wiki/X"
    fetch := fun _ => { status := 404, page := pageA } }

/-- Environment in which the fetched page lacks `#firstHeading`. -/
def envNoHeading : Env :=
  { search := fun _ => some "https://en.wikipedia.org/wiki/X"
    fetch := fun _ => { status := 200, page := pageNoHeading } }

/-- The empty run output. -/
def outEmpty : ScrapeOutput :=
  { results := [], files := [], summaryCsv := none }

/-- An article record whose summary is 201 characters long. -/
def longArticle : ArticleData :=
  { keyword := "k"
    title := "t"
    url := "u"
    summary := String.mk (List.replicate 201 'a')
    infobox := []
    sections := []
    references := []
    links := []
    images := [] }

/-- An article record with a short summary. -/
def shortArticle : ArticleData :=
  { keyword := "k"
    title := "t"
    url := "u"
    summary := "short"
    infobox := []
    sections := []
    references := []
    links := []
    images := [] }

/-- A protocol-relative image without alt text. -/
def imgDemo : Img :=
  { src := some "//upload.wikimedia.org/x.png", alt := none }

/-! ## Helper lemmas -/

/-! ### Dictionary lemmas -/

theorem dictGet_nil (q : String) : dictGet [] q = none := rfl

theorem dictGet_cons_self {x : String × String} {q : String}
    (d : List (String × String)) (h : x.1 = q) : dictGet (x :: d) q = some x.2 := by
  unfold dictGet
  rw [List.find?_cons_of_pos _ (by simpa using h)]
  rfl

theorem dictGet_cons_ne {x : String × String} {q : String}
    (d : List (String × String)) (h : x.1 ≠ q) : dictGet (x :: d) q = dictGet d q := by
  unfold dictGet
  rw [List.find?_cons_of_neg _ (by simpa using h)]

theorem mem_dictKeys {d : List (String × String)} {k : String} :
    k ∈ dictKeys d ↔ ∃ x ∈ d, x.1 = k := by
  simp [dictKeys, List.mem_map]

theorem any_key_eq_true {d : List (String × String)} {k : String} :
    d.any (fun p => p.1 == k) = true ↔ k ∈ dictKeys d := by
  rw [mem_dictKeys]
  simp [List.any_eq_true]

theorem dictSet_of_not_mem {d : List (String × String)} {k : String} (v : String)
    (h : k ∉ dictKeys d) : dictSet d k v = d ++ [(k, v)] := by
  unfold dictSet
  rw [if_neg (fun hc => h (any_key_eq_true.mp hc))]

theorem dictSet_of_mem {d : List (String × String)} {k : String} (v : String)
    (h : k ∈ dictKeys d) :
    dictSet d k v = d.map (fun p => if p.1 == k then (k, v) else p) := by
  unfold dictSet
  rw [if_pos (any_key_eq_true.mpr h)]

theorem dictGet_snoc_self {k v : String} (d : List (String × String))
    (h : k ∉ dictKeys d) : dictGet (d ++ [(k, v)]) k = some v := by
  induction d with
  | nil => exact dictGet_cons_self [] rfl
  | cons x tl ih =>
    have hx : x.1 ≠ k := fun hc => h (mem_dictKeys.mpr ⟨x, by simp, hc⟩)
    have htl : k ∉ dictKeys tl := by
      intro hc
      rcases mem_dictKeys.mp hc with ⟨y, hy, hyk⟩
      exact h (mem_dictKeys.mpr ⟨y, by simp [hy], hyk⟩)
    rw [List.cons_append, dictGet_cons_ne _ hx]
    exact ih htl

theorem dictGet_snoc_ne {k q : String} (v : String) (d : List (String × String))
    (hq : q ≠ k) : dictGet (d ++ [(k, v)]) q = dictGet d q := by
  induction d with
  | nil =>
    rw [List.nil_append, dictGet_cons_ne [] (fun hc => hq hc.symm)]
  | cons x tl ih =>
    by_cases hx : x.1 = q
    · rw [List.cons_append, dictGet_cons_self _ hx, dictGet_cons_self tl hx]
    · rw [List.cons_append, dictGet_cons_ne _ hx, dictGet_cons_ne tl hx, ih]

theorem dictSet_snoc_self {d : List (String × String)} {k v : String} (w : String)
    (h : k ∉ dictKeys d) : dictSet (d ++ [(k, v)]) k w = d ++ [(k, w)] := by
  have hmem : k ∈ dictKeys (d ++ [(k, v)]) := mem_dictKeys.mpr ⟨(k, v), by simp, rfl⟩
  rw [dictSet_of_mem w hmem, List.map_append]
  congr 1
  · refine (List.map_congr_left ?_).trans (List.map_id d)
    intro p hp
    have hp1 : p.1 ≠ k := fun hc => h (mem_dictKeys.mpr ⟨p, hp, hc⟩)
    simp [hp1]
  · simp

theorem dictGet_mapUpdate_ne (d : List (String × String)) {k q : String} (v : String)
    (hq : q ≠ k) :
    dictGet (d.map (fun p => if p.1 == k then (k, v) else p)) q = dictGet d q := by
  induction d with
  | nil => rfl
  | cons x tl ih =>
    rw [List.map_cons]
    by_cases hx : x.1 = k
    · have hxk : (if x.1 == k then (k, v) else x) = (k, v) := by simp [hx]
      have hxq : x.1 ≠ q := by
        rw [hx]
        exact fun hc => hq hc.symm
      rw [hxk, dictGet_cons_ne _ (fun hc => hq hc.symm), dictGet_cons_ne tl hxq, ih]
    · have hxk : (if x.1 == k then (k, v) else x) = x := by simp [hx]
      rw [hxk]
      by_cases hxq : x.1 = q
      · rw [dictGet_cons_self _ hxq, dictGet_cons_self tl hxq]
      · rw [dictGet_cons_ne _ hxq, dictGet_cons_ne tl hxq, ih]

theorem dictGet_mapUpdate_self (d : List (String × String)) {k : String} (v : String)
    (h : k ∈ dictKeys d) :
    dictGet (d.map (fun p => if p.1 == k then (k, v) else p)) k = some v := by
  induction d with
  | nil => simp [dictKeys] at h
  | cons x tl ih =>
    rw [List.map_cons]
    by_cases hx : x.1 = k
    · have hxk : (if x.1 == k then (k, v) else x) = (k, v) := by simp [hx]
      rw [hxk, dictGet_cons_self _ rfl]
    · have hxk : (if x.1 == k then (k, v) else x) = x := by simp [hx]
      have htl : k ∈ dictKeys tl := by
        rcases mem_dictKeys.mp h with ⟨y, hy, hyk⟩
        rcases List.mem_cons.mp hy with h1 | h2
        · exact absurd (h1 ▸ hyk) hx
        · exact mem_dictKeys.mpr ⟨y, h2, hyk⟩
      rw [hxk, dictGet_cons_ne _ hx]
      exact ih htl

/-- `dict` assignment followed by lookup: the assigned key reads back the
new value, every other key is unchanged. -/
theorem dictGet_dictSet (d : List (String × String)) (k v q : String) :
    dictGet (dictSet d k v) q = if q = k then some v else dictGet d q := by
  by_cases hmem : k ∈ dictKeys d
  · rw [dictSet_of_mem v hmem]
    by_cases hq : q = k
    · subst hq
      rw [if_pos rfl]
      exact dictGet_mapUpdate_self d v hmem
    · rw [if_neg hq]
      exact dictGet_mapUpdate_ne d v hq
  · rw [dictSet_of_not_mem v hmem]
    by_cases hq : q = k
    · subst hq
      rw [if_pos rfl]
      exact dictGet_snoc_self d hmem
    · rw [if_neg hq]
      exact dictGet_snoc_ne v d hq

/-- Assignment leaves the key sequence unchanged when the key is present,
and appends the key otherwise. -/
theorem dictKeys_dictSet (d : List (String × String)) (k v : String) :
    dictKeys (dictSet d k v) =
      if k ∈ dictKeys d then dictKeys d else dictKeys d ++ [k] := by
  by_cases hmem : k ∈ dictKeys d
  · rw [if_pos hmem, dictSet_of_mem v hmem]
    unfold dictKeys
    rw [List.map_map]
    apply List.map_congr_left
    intro p hp
    by_cases hx : p.1 = k
    · simp [Function.comp, hx]
    · simp [Function.comp, hx]
  · rw [if_neg hmem, dictSet_of_not_mem v hmem]
    simp [dictKeys]

/-- Assignment preserves distinctness of the keys. -/
theorem nodup_dictKeys_dictSet {d : List (String × String)} (k v : String)
    (h : (dictKeys d).Nodup) : (dictKeys (dictSet d k v)).Nodup := by
  rw [dictKeys_dictSet]
  by_cases hmem : k ∈ dictKeys d
  · rw [if_pos hmem]
    exact h
  · rw [if_neg hmem]
    refine List.Nodup.append h (List.nodup_singleton k) ?_
    intro a ha hb
    simp at hb
    subst hb
    exact hmem ha

/-! ### Character lemmas for the filename derivation -/

theorem char_toNat_ofNat {n : Nat} (h : n < 55296) : (Char.ofNat n).toNat = n := by
  have hv : n.isValidChar := Or.inl h
  rw [Char.ofNat, dif_pos hv]
  rfl

theorem char_eq_of_toNat_eq {a b : Char} (h : a.toNat = b.toNat) : a = b :=
  Char.ext (UInt32.toNat.inj h)

/-- Code point of `Char.toLower`: basic latin capitals shift by 32,
everything else is unchanged. -/
theorem toLower_toNat (c : Char) :
    (Char.toLower c).toNat =
      if 65 ≤ c.toNat ∧ c.toNat ≤ 90 then c.toNat + 32 else c.toNat := by
  by_cases h : 65 ≤ c.toNat ∧ c.toNat ≤ 90
  · rw [if_pos h]
    have h32 : c.toNat + 32 < 55296 := by omega
    show (Char.toLower c).toNat = c.toNat + 32
    unfold Char.toLower
    rw [if_pos (show Char.toNat c ≥ 65 ∧ Char.toNat c ≤ 90 from ⟨h.1, h.2⟩)]
    exact char_toNat_ofNat h32
  · rw [if_neg h]
    unfold Char.toLower
    rw [if_neg (fun hc => h ⟨hc.1, hc.2⟩)]

/-- What one kept character becomes: still a word or space character,
never a space, never an upper-case letter. -/
theorem safeChar_ok {c : Char} (hk : (isWordChar c || isSpaceChar c) = true)
    (hne : c ≠ ' ') :
    (isWordChar (Char.toLower c) || isSpaceChar (Char.toLower c)) = true ∧
      (Char.toLower c).toNat ≠ 32 ∧
      ¬(65 ≤ (Char.toLower c).toNat ∧ (Char.toLower c).toNat ≤ 90) := by
  have hne32 : c.toNat ≠ 32 := by
    intro hc
    exact hne (char_eq_of_toNat_eq (by rw [hc]; rfl))
  simp only [isWordChar, isSpaceChar, Bool.or_eq_true, Bool.and_eq_true,
    decide_eq_true_eq, beq_iff_eq] at hk ⊢
  rw [toLower_toNat]
  by_cases h : 65 ≤ c.toNat ∧ c.toNat ≤ 90
  · rw [if_pos h]
    omega
  · rw [if_neg h]
    omega

/-! ## Claim theorems -/

/-- C1 counterexample: the safe-name derivation maps the keyword
"C++ Programming!" to the record filename "c_programming.json" — the plus
signs are punctuation and are removed outright — so the output file is not
named "cpp_programming.json" as the claim states. -/
theorem C1_counterexample :
    safeFilename "C++ Programming!" ++ ".json" = "c_programming.json" ∧
      safeFilename "C++ Programming!" ++ ".json" ≠ "cpp_programming.json" := by
  constructor
  · decide
  · decide

/-- C1 (amended): the filesystem-safe name derivation removes punctuation
(only word and whitespace characters survive), turns each space into an
underscore (no space remains), and lower-cases (no capital letter remains);
for the keyword "C++ Programming!" the output record file is named
"c_programming.json". -/
theorem C1_thm (keyword : String) :
    (∀ c ∈ (safeFilename keyword).data,
        (isWordChar c || isSpaceChar c) = true ∧ c.toNat ≠ 32 ∧
          ¬(65 ≤ c.toNat ∧ c.toNat ≤ 90)) ∧
      safeFilename "C++ Programming!" ++ ".json" = "c_programming.json" := by
  constructor
  · intro c hc
    simp only [safeFilename, List.mem_map, List.mem_filter] at hc
    obtain ⟨b, ⟨a, ⟨hamem, hak⟩, hab⟩, hbc⟩ := hc
    subst hbc
    subst hab
    by_cases hsp : a = ' '
    · subst hsp
      refine ⟨by decide, by decide, by decide⟩
    · rw [if_neg hsp]
      exact safeChar_ok hak hsp
  · decide

/-- C1 witness: the amended theorem applied at the keywords "Ab c" and
"C++ Programming!". -/
theorem C1_witness :
    ((isWordChar 'b' || isSpaceChar 'b') = true ∧ ('b').toNat ≠ 32 ∧
        ¬(65 ≤ ('b').toNat ∧ ('b').toNat ≤ 90)) ∧
      safeFilename "C++ Programming!" ++ ".json" = "c_programming.json" :=
  ⟨(C1_thm "Ab c").1 'b' (by decide), (C1_thm "x").2⟩

/-- C3: a record whose summary exceeds 200 characters appears in its
summary-table row truncated to the first 200 characters followed by the
ellipsis marker; a summary of at most 200 characters appears unmodified. -/
theorem C3_thm (a : ArticleData) :
    (200 < a.summary.length →
        (mkSummaryRow a).summary = a.summary.take 200 ++ "...") ∧
      (a.summary.length ≤ 200 → (mkSummaryRow a).summary = a.summary) := by
  constructor
  · intro h
    show truncateSummary a.summary = a.summary.take 200 ++ "..."
    unfold truncateSummary
    rw [if_pos h]
  · intro h
    show truncateSummary a.summary = a.summary
    unfold truncateSummary
    rw [if_neg (by omega)]

set_option maxRecDepth 4000 in
/-- C3 witness: the theorem applied to a record with a 201-character
summary and to a record with a short summary. -/
theorem C3_witness :
    (mkSummaryRow longArticle).summary = longArticle.summary.take 200 ++ "..." ∧
      (mkSummaryRow shortArticle).summary = shortArticle.summary :=
  ⟨(C3_thm longArticle).1 (by decide), (C3_thm shortArticle).2 (by decide)⟩

/-- C5: the extracted summary equals the trimmed text of the first
paragraph whose trimmed text is non-empty and which contains no image;
when no paragraph qualifies, the summary is the empty string. -/
theorem C5_thm (ps : List Para) :
    getSummary ps = ((ps.find? goodPara).map (fun p => pyStrip p.text)).getD "" := by
  induction ps with
  | nil => rfl
  | cons p rest ih =>
    by_cases h : goodPara p = true
    · have h2 : (pyStrip p.text != "" && !p.hasImg) = true := h
      show (if pyStrip p.text != "" && !p.hasImg then pyStrip p.text else getSummary rest) = _
      rw [if_pos h2, List.find?_cons_of_pos _ h]
      rfl
    · have h2 : ¬((pyStrip p.text != "" && !p.hasImg) = true) := h
      show (if pyStrip p.text != "" && !p.hasImg then pyStrip p.text else getSummary rest) = _
      rw [if_neg h2, List.find?_cons_of_neg _ h]
      exact ih

/-! ### Infobox lemmas (claim C4) -/

theorem infoboxGo_eq_fold (rows : List Row) :
    ∀ acc, infoboxGo rows acc =
      (rows.filterMap completeKV).foldl (fun d p => dictSet d p.1 p.2) acc := by
  induction rows with
  | nil =>
    intro acc
    rfl
  | cons r rest ih =>
    intro acc
    rcases r with ⟨th, td⟩
    cases th with
    | none =>
      simp only [infoboxGo, completeKV, List.filterMap_cons]
      exact ih acc
    | some h =>
      cases td with
      | none =>
        simp only [infoboxGo, completeKV, List.filterMap_cons]
        exact ih acc
      | some d =>
        simp only [infoboxGo, completeKV, List.filterMap_cons, List.foldl_cons]
        exact ih (dictSet acc (pyStrip h) (pyStrip d))

theorem dictGet_fold (kvs : List (String × String)) :
    ∀ (acc : List (String × String)) (q : String),
      dictGet (kvs.foldl (fun d p => dictSet d p.1 p.2) acc) q =
        (match kvs.reverse.find? (fun p => p.1 == q) with
          | some p => some p.2
          | none => dictGet acc q) := by
  induction kvs with
  | nil =>
    intro acc q
    rfl
  | cons x rest ih =>
    intro acc q
    rw [List.foldl_cons, ih (dictSet acc x.1 x.2) q, List.reverse_cons, List.find?_append]
    cases hf : rest.reverse.find? (fun p => p.1 == q) with
    | some p => rfl
    | none =>
      show dictGet (dictSet acc x.1 x.2) q = _
      rw [dictGet_dictSet]
      simp only [Option.none_or]
      by_cases hq : q = x.1
      · have hb : (x.1 == q) = true := by simpa using hq.symm
        have hfind : List.find? (fun p => p.1 == q) [x] = some x := by
          simp only [List.find?_cons, hb]
        rw [if_pos hq, hfind]
      · have hb : (x.1 == q) = false := by
          simp only [beq_eq_false_iff_ne, ne_eq]
          exact fun hc => hq hc.symm
        have hfind : List.find? (fun p => p.1 == q) [x] = none := by
          simp only [List.find?_cons, hb, List.find?_nil]
        rw [if_neg hq, hfind]

theorem nodup_dictKeys_fold (kvs : List (String × String)) :
    ∀ acc, (dictKeys acc).Nodup →
      (dictKeys (kvs.foldl (fun d p => dictSet d p.1 p.2) acc)).Nodup := by
  induction kvs with
  | nil =>
    intro acc h
    exact h
  | cons x rest ih =>
    intro acc h
    rw [List.foldl_cons]
    exact ih _ (nodup_dictKeys_dictSet x.1 x.2 h)

/-- C4: the infobox mapping has pairwise-distinct keys, and looking up any
header text returns exactly the trimmed data text of the last row carrying
that (trimmed) header among the rows that have both a header and a data
cell; headers occurring in no such row are absent.  Rows missing either
cell contribute nothing (they are dropped by `completeKV`). -/
theorem C4_thm (rows : List Row) :
    (dictKeys (getInfobox rows)).Nodup ∧
      ∀ h : String,
        dictGet (getInfobox rows) h =
          ((rows.filterMap completeKV).reverse.find? (fun p => p.1 == h)).map Prod.snd := by
  constructor
  · have hn := nodup_dictKeys_fold (rows.filterMap completeKV) [] (by simp [dictKeys])
    rw [getInfobox, infoboxGo_eq_fold]
    exact hn
  · intro h
    rw [getInfobox, infoboxGo_eq_fold, dictGet_fold]
    cases hf : (rows.filterMap completeKV).reverse.find? (fun p => p.1 == h) with
    | some p => rfl
    | none => rfl

/-! ### Section lemmas (claim C2) -/

theorem str_join_cons (s : String) (l : List String) :
    String.join (s :: l) = s ++ String.join l := by
  apply String.ext
  simp [String.data_join]

theorem headingTrims_cons_heading (t : String) (rest : List Elem) :
    headingTrims (Elem.heading t :: rest) = pyStrip t :: headingTrims rest := by
  simp [headingTrims, List.filterMap_cons]

theorem headingTrims_cons_para (t : String) (rest : List Elem) :
    headingTrims (Elem.para t :: rest) = headingTrims rest := by
  simp [headingTrims, List.filterMap_cons]

theorem headingTrims_dropWhile (es : List Elem) :
    headingTrims (es.dropWhile (fun e => !isHeadingElem e)) = headingTrims es := by
  induction es with
  | nil => rfl
  | cons e rest ih =>
    cases e with
    | heading t =>
      rw [List.dropWhile_cons_of_neg (by simp [isHeadingElem])]
    | para t =>
      rw [List.dropWhile_cons_of_pos (by simp [isHeadingElem]), ih,
        headingTrims_cons_para]

theorem dictKeys_append (a b : List (String × String)) :
    dictKeys (a ++ b) = dictKeys a ++ dictKeys b := by
  simp [dictKeys]

theorem chunkText_nil : chunkText [] = "" := rfl

theorem chunkText_cons_heading (t : String) (rest : List Elem) :
    chunkText (Elem.heading t :: rest) = "" := by
  rw [chunkText, List.takeWhile_cons_of_neg (by simp [isHeadingElem])]
  rfl

theorem chunkText_cons_para (t : String) (rest : List Elem) :
    chunkText (Elem.para t :: rest) = (pyStrip t ++ " ") ++ chunkText rest := by
  rw [chunkText, List.takeWhile_cons_of_pos (by simp [isHeadingElem]),
    List.map_cons, str_join_cons]
  rfl

theorem sectionsSpec_nil : sectionsSpec [] = [] := by
  rw [sectionsSpec]

theorem sectionsSpec_cons_para (t : String) (rest : List Elem) :
    sectionsSpec (Elem.para t :: rest) = sectionsSpec rest := by
  rw [sectionsSpec]

theorem sectionsSpec_cons_heading (t : String) (rest : List Elem) :
    sectionsSpec (Elem.heading t :: rest) =
      (pyStrip t, chunkText rest) ::
        sectionsSpec (rest.dropWhile (fun e => !isHeadingElem e)) := by
  rw [sectionsSpec]

/-- Running the loop just after a heading opened section `s` (stored last,
with text `v` so far): the paragraphs up to the next heading extend `s`,
and the remaining elements contribute `sectionsSpec` of the tail. -/
theorem sectionsGo_afterHeading :
    ∀ (es : List Elem) (s v : String) (acc : List (String × String)),
      s ≠ "" → s ∉ dictKeys acc →
      (∀ h ∈ headingTrims es, h ≠ "" ∧ h ∉ dictKeys acc ∧ h ≠ s) →
      (headingTrims es).Nodup →
      sectionsGo es (some s) (acc ++ [(s, v)]) =
        acc ++ [(s, v ++ chunkText es)] ++
          sectionsSpec (es.dropWhile (fun e => !isHeadingElem e)) := by
  intro es
  induction es with
  | nil =>
    intro s v acc hs hacc hall hnd
    show acc ++ [(s, v)] = _
    rw [chunkText_nil, String.append_empty]
    simp [sectionsSpec]
  | cons e rest ih =>
    intro s v acc hs hacc hall hnd
    cases e with
    | para t =>
      show (if s = "" then sectionsGo rest (some s) (acc ++ [(s, v)])
          else sectionsGo rest (some s)
            (dictSet (acc ++ [(s, v)]) s
              ((dictGet (acc ++ [(s, v)]) s).getD "" ++ pyStrip t ++ " "))) = _
      rw [if_neg hs, dictGet_snoc_self acc hacc]
      show sectionsGo rest (some s)
          (dictSet (acc ++ [(s, v)]) s (v ++ pyStrip t ++ " ")) = _
      rw [dictSet_snoc_self _ hacc]
      have hall2 : ∀ h ∈ headingTrims rest, h ≠ "" ∧ h ∉ dictKeys acc ∧ h ≠ s := by
        intro h hmem
        exact hall h (by rw [headingTrims_cons_para]; exact hmem)
      have hnd2 : (headingTrims rest).Nodup := by
        rw [headingTrims_cons_para] at hnd
        exact hnd
      rw [ih s (v ++ pyStrip t ++ " ") acc hs hacc hall2 hnd2,
        List.dropWhile_cons_of_pos (by simp [isHeadingElem]),
        chunkText_cons_para]
      simp [String.append_assoc]
    | heading t =>
      show sectionsGo rest (some (pyStrip t)) (dictSet (acc ++ [(s, v)]) (pyStrip t) "") = _
      have hh := hall (pyStrip t) (by
        rw [headingTrims_cons_heading]
        exact List.mem_cons_self _ _)
      obtain ⟨hh1, hh2, hh3⟩ := hh
      have hnotmem : pyStrip t ∉ dictKeys (acc ++ [(s, v)]) := by
        rw [dictKeys_append]
        intro hc
        rcases List.mem_append.mp hc with h1 | h2
        · exact hh2 h1
        · simp [dictKeys] at h2
          exact hh3 h2
      rw [headingTrims_cons_heading] at hnd
      have httnot : pyStrip t ∉ headingTrims rest := (List.nodup_cons.mp hnd).1
      have hnd2 : (headingTrims rest).Nodup := (List.nodup_cons.mp hnd).2
      have hall2 : ∀ h ∈ headingTrims rest,
          h ≠ "" ∧ h ∉ dictKeys (acc ++ [(s, v)]) ∧ h ≠ pyStrip t := by
        intro h hmem
        have hh4 := hall h (by
          rw [headingTrims_cons_heading]
          exact List.mem_cons_of_mem _ hmem)
        refine ⟨hh4.1, ?_, ?_⟩
        · rw [dictKeys_append]
          intro hc
          rcases List.mem_append.mp hc with h1 | h2
          · exact hh4.2.1 h1
          · simp [dictKeys] at h2
            exact hh4.2.2 h2
        · intro hc
          subst hc
          exact httnot hmem
      rw [dictSet_of_not_mem _ hnotmem,
        ih (pyStrip t) "" (acc ++ [(s, v)]) hh1 hnotmem hall2 hnd2,
        List.dropWhile_cons_of_neg (by simp [isHeadingElem]),
        sectionsSpec_cons_heading, chunkText_cons_heading, String.append_empty,
        String.empty_append]
      simp [List.append_assoc]

/-- Running the loop with no open section: leading paragraphs are dropped
and the result is the accumulator followed by `sectionsSpec`. -/
theorem sectionsGo_top :
    ∀ (es : List Elem) (acc : List (String × String)),
      (∀ h ∈ headingTrims es, h ≠ "" ∧ h ∉ dictKeys acc) →
      (headingTrims es).Nodup →
      sectionsGo es none acc = acc ++ sectionsSpec es := by
  intro es
  induction es with
  | nil =>
    intro acc _ _
    show acc = _
    simp [sectionsSpec]
  | cons e rest ih =>
    intro acc hall hnd
    cases e with
    | para t =>
      show sectionsGo rest none acc = _
      have hall2 : ∀ h ∈ headingTrims rest, h ≠ "" ∧ h ∉ dictKeys acc := by
        intro h hmem
        exact hall h (by rw [headingTrims_cons_para]; exact hmem)
      have hnd2 : (headingTrims rest).Nodup := by
        rw [headingTrims_cons_para] at hnd
        exact hnd
      rw [ih acc hall2 hnd2, sectionsSpec_cons_para]
    | heading t =>
      show sectionsGo rest (some (pyStrip t)) (dictSet acc (pyStrip t) "") = _
      have hh := hall (pyStrip t) (by
        rw [headingTrims_cons_heading]
        exact List.mem_cons_self _ _)
      rw [headingTrims_cons_heading] at hnd
      have httnot : pyStrip t ∉ headingTrims rest := (List.nodup_cons.mp hnd).1
      have hnd2 : (headingTrims rest).Nodup := (List.nodup_cons.mp hnd).2
      have hall2 : ∀ h ∈ headingTrims rest,
          h ≠ "" ∧ h ∉ dictKeys acc ∧ h ≠ pyStrip t := by
        intro h hmem
        have hh4 := hall h (by
          rw [headingTrims_cons_heading]
          exact List.mem_cons_of_mem _ hmem)
        refine ⟨hh4.1, hh4.2, ?_⟩
        intro hc
        subst hc
        exact httnot hmem
      rw [dictSet_of_not_mem _ hh.2,
        sectionsGo_afterHeading rest (pyStrip t) "" acc hh.1 hh.2 hall2 hnd2,
        sectionsSpec_cons_heading, String.empty_append]
      simp [List.append_assoc]

theorem dictKeys_sectionsSpec (es : List Elem) :
    dictKeys (sectionsSpec es) = headingTrims es := by
  induction es using sectionsSpec.induct with
  | case1 =>
    rw [sectionsSpec_nil]
    rfl
  | case2 t rest ih =>
    rw [sectionsSpec_cons_para, headingTrims_cons_para]
    exact ih
  | case3 t rest ih =>
    rw [sectionsSpec_cons_heading, headingTrims_cons_heading]
    show pyStrip t :: dictKeys (sectionsSpec (rest.dropWhile (fun e => !isHeadingElem e))) = _
    rw [ih, headingTrims_dropWhile]

/-- C2 counterexample: for the element sequence [heading "H", paragraph
"a"] the value stored under "H" is "a " — each paragraph contributes its
trimmed text plus a trailing space — and not the space-joined
concatenation "a" of the paragraph texts that the claim states. -/
theorem C2_counterexample :
    dictGet (getSections [Elem.heading "H", Elem.para "a"]) "H" =
        some ("a" ++ " ") ∧
      dictGet (getSections [Elem.heading "H", Elem.para "a"]) "H" ≠
        some (String.intercalate " " (["a"].map pyStrip)) := by
  constructor
  · decide
  · decide

/-- C2 (amended): for every sequence of heading/paragraph elements whose
trimmed heading texts are pairwise distinct and non-empty, the resulting
sections mapping has one key per heading, in document order, and the value
for each heading is the concatenation of the trimmed texts of the
paragraphs lying between that heading and the next heading, each followed
by a single trailing space; paragraphs before any heading are dropped. -/
theorem C2_thm (es : List Elem)
    (h1 : ∀ h ∈ headingTrims es, h ≠ "") (h2 : (headingTrims es).Nodup) :
    getSections es = sectionsSpec es ∧
      dictKeys (getSections es) = headingTrims es := by
  have hmain : getSections es = sectionsSpec es := by
    rw [getSections,
      sectionsGo_top es [] (fun h hm => ⟨h1 h hm, by simp [dictKeys]⟩) h2]
    rfl
  refine ⟨hmain, ?_⟩
  rw [hmain, dictKeys_sectionsSpec]

/-- C2 witness: the amended theorem applied to a concrete two-section
document. -/
theorem C2_witness :
    getSections [Elem.heading "A", Elem.para " x ", Elem.heading "B", Elem.para "y"] =
        sectionsSpec [Elem.heading "A", Elem.para " x ", Elem.heading "B", Elem.para "y"] ∧
      dictKeys (getSections
          [Elem.heading "A", Elem.para " x ", Elem.heading "B", Elem.para "y"]) =
        headingTrims [Elem.heading "A", Elem.para " x ", Elem.heading "B", Elem.para "y"] :=
  C2_thm _ (by decide) (by decide)

/-! ### Image-source lemmas (claim C6) -/

theorem pyStartsWith_https_append (s : String) :
    pyStartsWith ("https:" ++ s) "http" = true := by
  show List.isPrefixOf "http".data ("https:" ++ s).data = true
  rw [String.data_append]
  show List.isPrefixOf ['h', 't', 't', 'p']
    (['h', 't', 't', 'p', 's', ':'] ++ s.data) = true
  simp [List.isPrefixOf_cons₂, List.isPrefixOf_nil_left]

theorem not_http_of_protocol_relative {s : String}
    (h : pyStartsWith s "//" = true) : pyStartsWith s "http" = false := by
  unfold pyStartsWith at h ⊢
  cases hd : s.data with
  | nil =>
    rw [hd] at h
    simp [List.isPrefixOf] at h
  | cons b bs =>
    rw [hd] at h
    rw [show ("//" : String).data = ['/', '/'] from rfl] at h
    rw [List.isPrefixOf_cons₂, Bool.and_eq_true] at h
    have hb : b = '/' := by
      have h1 := h.1
      simp only [beq_iff_eq] at h1
      exact h1.symm
    subst hb
    rw [show ("http" : String).data = ['h', 't', 't', 'p'] from rfl]
    rw [List.isPrefixOf_cons₂,
      show (('h' : Char) == ('/' : Char)) = false from rfl, Bool.false_and]

/-- C6: every emitted image pair comes out of `extractImage`; its source is
an absolute address (it carries the http scheme); when the original
reference is scheme-relative or protocol-relative (it starts with "//") the
https scheme prefix is prepended; and the alt text passes through
unchanged, the empty string when absent. -/
theorem C6_thm (imgs : List Img) (i : Img) (hmem : i ∈ imgs) :
    extractImage i ∈ getImages imgs ∧
      pyStartsWith (extractImage i).1 "http" = true ∧
      (pyStartsWith (i.src.getD "") "//" = true →
        (extractImage i).1 = "https:" ++ i.src.getD "") ∧
      (extractImage i).2 = i.alt.getD "" ∧
      (i.alt = none → (extractImage i).2 = "") := by
  refine ⟨List.mem_map_of_mem _ hmem, ?_, ?_, rfl, ?_⟩
  · show pyStartsWith (normalizeSrc (i.src.getD "")) "http" = true
    unfold normalizeSrc
    by_cases h : pyStartsWith (i.src.getD "") "http" = true
    · rw [if_pos h]
      exact h
    · rw [if_neg h]
      exact pyStartsWith_https_append _
  · intro h
    show normalizeSrc (i.src.getD "") = "https:" ++ i.src.getD ""
    unfold normalizeSrc
    have hf := not_http_of_protocol_relative h
    rw [if_neg (by simp [hf])]
  · intro h
    show i.alt.getD "" = ""
    rw [h]
    rfl

/-- C6 witness: the theorem applied to a protocol-relative image with no
alt text. -/
theorem C6_witness :
    extractImage imgDemo ∈ getImages [imgDemo] ∧
      pyStartsWith (extractImage imgDemo).1 "http" = true ∧
      (extractImage imgDemo).1 = "https:" ++ imgDemo.src.getD "" ∧
      (extractImage imgDemo).2 = imgDemo.alt.getD "" ∧
      (extractImage imgDemo).2 = "" := by
  obtain ⟨hm, habs, hproto, halt, hnone⟩ :=
    C6_thm [imgDemo] imgDemo (by decide)
  exact ⟨hm, habs, hproto (by decide), halt, hnone rfl⟩

/-! ### Run-level lemmas (claims C7, C8, C9, C10) -/

/-- C7: a fetch that comes back with a non-success HTTP status makes the
extractor log an error and return none — no record is produced — and the
loop goes on with the remaining keywords exactly as if this keyword were
absent. -/
theorem C7_thm (env : Env) (k u : String) (rest : List String)
    (res : List ArticleData) (files : List (String × ArticleData))
    (hsearch : env.search k = some u)
    (hstatus : ¬(200 ≤ (env.fetch u).status ∧ (env.fetch u).status < 300)) :
    get_article_content u (env.fetch u) = Except.ok none ∧
      scrapeGo env (k :: rest) res files = scrapeGo env rest res files := by
  have h200 : (env.fetch u).status ≠ 200 := by
    intro hc
    exact hstatus ⟨by omega, by omega⟩
  have hget : get_article_content u (env.fetch u) = Except.ok none := by
    unfold get_article_content
    rw [if_pos h200]
  refine ⟨hget, ?_⟩
  simp only [scrapeGo, hsearch, hget]

/-- C7 witness: the theorem applied in an environment whose fetches all
return status 404. -/
theorem C7_witness :
    get_article_content "https://en.wikipedia.org/wiki/X"
        (envFail.fetch "https://en.wikipedia.org/wiki/X") = Except.ok none ∧
      scrapeGo envFail ["k"] [] [] = scrapeGo envFail [] [] [] :=
  C7_thm envFail "k" "https://en.wikipedia.org/wiki/X" [] [] [] rfl (by decide)

/-- C8: a run writes the summary table exactly when at least one record was
produced, and then its rows are the truncated summary rows of the results
in order. -/
theorem C8_thm (env : Env) (ks : List String) (out : ScrapeOutput)
    (h : scrape_keywords env ks = Except.ok out) :
    (out.summaryCsv = none ↔ out.results = []) ∧
      (out.results ≠ [] → out.summaryCsv = some (out.results.map mkSummaryRow)) := by
  unfold scrape_keywords at h
  cases hgo : scrapeGo env ks [] [] with
  | error e =>
    rw [hgo] at h
    simp [Except.map] at h
  | ok pr =>
    rw [hgo] at h
    simp only [Except.map] at h
    have hout : out = { results := pr.1, files := pr.2,
                        summaryCsv := if pr.1.isEmpty then none
                          else some (pr.1.map mkSummaryRow) } := by
      injection h with h2
      exact h2.symm
    subst hout
    by_cases he : pr.1.isEmpty = true
    · have hnil : pr.1 = [] := by
        cases hl : pr.1 with
        | nil => rfl
        | cons a l =>
          rw [hl] at he
          simp [List.isEmpty] at he
      constructor
      · constructor
        · intro _
          exact hnil
        · intro _
          show (if pr.1.isEmpty then none else some (pr.1.map mkSummaryRow)) = none
          rw [if_pos he]
      · intro hne
        exact absurd hnil hne
    · have hne : pr.1 ≠ [] := by
        intro hc
        rw [hc] at he
        exact he rfl
      constructor
      · constructor
        · intro hc
          show pr.1 = []
          exfalso
          rw [show ((if pr.1.isEmpty then none else some (pr.1.map mkSummaryRow)) :
              Option (List SummaryRow)) = some (pr.1.map mkSummaryRow) from if_neg he] at hc
          exact Option.noConfusion hc
        · intro hc
          exact absurd hc hne
      · intro _
        show (if pr.1.isEmpty then none else some (pr.1.map mkSummaryRow)) =
          some (pr.1.map mkSummaryRow)
        rw [if_neg he]

/-- C8 witness: the theorem applied to the empty run, which writes no
summary file. -/
theorem C8_witness :
    (outEmpty.summaryCsv = none ↔ outEmpty.results = []) ∧
      (outEmpty.results ≠ [] →
        outEmpty.summaryCsv = some (outEmpty.results.map mkSummaryRow)) :=
  C8_thm envOk [] outEmpty rfl

/-- C9: on a success-status page that lacks the `#firstHeading` element the
extractor raises an unhandled AttributeError instead of returning a record
or none, and the whole run aborts with that error. -/
theorem C9_thm (env : Env) (k u : String) (rest : List String)
    (res : List ArticleData) (files : List (String × ArticleData))
    (hsearch : env.search k = some u)
    (hstatus : (env.fetch u).status = 200)
    (hhead : (env.fetch u).page.firstHeading = none) :
    get_article_content u (env.fetch u) = Except.error "AttributeError" ∧
      scrapeGo env (k :: rest) res files = Except.error "AttributeError" ∧
      scrape_keywords env (k :: rest) = Except.error "AttributeError" := by
  have hget : get_article_content u (env.fetch u) = Except.error "AttributeError" := by
    unfold get_article_content
    rw [if_neg (fun hc => hc hstatus), hhead]
  refine ⟨hget, ?_, ?_⟩
  · simp only [scrapeGo, hsearch, hget]
  · unfold scrape_keywords
    have hloop : scrapeGo env (k :: rest) [] [] = Except.error "AttributeError" := by
      simp only [scrapeGo, hsearch, hget]
    rw [hloop]
    rfl

/-- C9 witness: the theorem applied in an environment whose pages lack the
main heading element. -/
theorem C9_witness :
    get_article_content "https://en.wikipedia.org/wiki/X"
        (envNoHeading.fetch "https://en.wikipedia.org/wiki/X") =
          Except.error "AttributeError" ∧
      scrapeGo envNoHeading ["k"] [] [] = Except.error "AttributeError" ∧
      scrape_keywords envNoHeading ["k"] = Except.error "AttributeError" :=
  C9_thm envNoHeading "k" "https://en.wikipedia.org/wiki/X" [] [] [] rfl rfl rfl

/-- C10: the keyword-to-filename derivation is not injective: the distinct
keywords "AI" and "A.I." share the safe filename "ai", so in a run that
scrapes both, the two record writes go to the same file "ai.json" — the
later write silently overwrites the earlier one. -/
theorem C10_thm :
    safeFilename "AI" = safeFilename "A.I." ∧ "AI" ≠ "A.I." ∧
      (scrape_keywords envOk ["AI", "A.I."]).toOption.map
          (fun o => o.files.map Prod.fst) =
        some ["ai.json", "ai.json"] := by
  refine ⟨by decide, by decide, ?_⟩
  decide

end WikiScraper
